import Mathlib

/-!
Verification of the market-coordination core of the smart-energy-grid
multi-agent simulator.

The definitions below are a shallow embedding of the coordinator code:

* `agents/grid_node_agent.py` — the monolithic `GridNodeAgent` (its
  `Receiver`, `_check_and_trigger_failure` and `RoundOrchestrator.run`);
* `agents/grid_node/receivers.py` and `agents/grid_node/orchestrator.py` —
  the modular revision of the same coordinator;
* `agents/performance_metrics.py` — `PerformanceTracker.record_round`;
* `agents/producer_agent.py` — the producer side, where relevant to the
  coordinator's failure bookkeeping.

Python floats (energies, prices, timestamps) are modelled as rationals `ℚ`;
Python dicts keyed by agent JIDs are modelled as association lists
`List (String × α)` in insertion order, which is how the code iterates them.
-/

namespace SmartGrid

/-- An entry of `offers_round[R]` (`grid_node_agent.py` Receiver,
`energy_offer` branch): energy offered and unit price. -/
structure Offer where
  kwh : ℚ
  price : ℚ
deriving Repr, DecidableEq

/-- An entry of `requests_round[R]` (`energy_request` branch):
energy needed and the buyer's maximum unit price. -/
structure Request where
  need : ℚ
  priceMax : ℚ
deriving Repr, DecidableEq

/-- One element of the `purchases` list built by the matching loop
(`grid_node_agent.py` lines 651-696): a sub-allocation from one seller. -/
structure Purchase where
  seller : String
  amount : ℚ
  price : ℚ
deriving Repr, DecidableEq

/-- A Python dict from JIDs to floats (`seller_remaining`,
`buyer_received_kw`), kept in insertion order. -/
abbrev QMap := List (String × ℚ)

/-- Dict read with the same result as `d.get(k, 0.0)`. All reads the
code performs with `d[k]` happen at keys that are present. -/
def qget (m : QMap) (k : String) : ℚ := (m.lookup k).getD 0

/-- Pointwise value update of a dict: every entry keeps its key, the value
at key `k` is transformed by `f k`. `qdec` and `qset` below are the two
instances the code uses. -/
def qmod (m : QMap) (f : String → ℚ → ℚ) : QMap :=
  m.map fun p => (p.1, f p.1 p.2)

/-- `d[k] -= a` : decrement the value stored at `k`, keep other entries. -/
def qdec (m : QMap) (k : String) (a : ℚ) : QMap :=
  qmod m fun s v => if s = k then v - a else v

/-- `d[k] = v` for a key that is already present (the code only assigns
`buyer_received_kw[buyer]` for buyers seeded into the dict). -/
def qset (m : QMap) (k : String) (v : ℚ) : QMap :=
  qmod m fun s w => if s = k then v else w

/-! Section: Matching algorithm

Shallow embedding of the greedy matching with partial allocation in
`GridNodeAgent.RoundOrchestrator.run` (`agents/grid_node_agent.py`
lines 612-792).  The modular revision
(`agents/grid_node/orchestrator.py` lines 240-443) runs the same loop; the
two differ only in the threshold used to count a buyer as fully matched
(99.9 vs 99.0) and in that the modular one first caps each side by
`get_operational_limit_info`.  That helper is not part of the sources;
per the spec (§4.6) its effective limit comes from the configured
`AGENT_LIMITS_KW` role limits, which this repository's configuration
(`scenarios/base_config.py`) does not define, so no finite cap applies and
both revisions start each seller at its offered kWh.  The full-match
threshold is kept as a parameter `thr`. -/

/-- Ordering used by Python's `available_sellers.sort()` on tuples
`(price, seller, offer_data)`: lexicographic on price, then seller id
(seller ids are unique, so the third component is never compared). -/
def candLE (a b : ℚ × String) : Bool :=
  decide (a.1 < b.1) || (decide (a.1 = b.1) && !decide (b.2 < a.2))

/-- `available_sellers` for one buyer: sellers with more than 0.01 kWh
remaining whose price the buyer can afford, as `(price, seller)` pairs,
sorted by `(price asc, seller asc)`. -/
def availableSellers (offers : List (String × Offer)) (rem : QMap)
    (priceMax : ℚ) : List (ℚ × String) :=
  ((offers.filter fun p =>
      decide (qget rem p.1 > 1/100) && decide (p.2.price ≤ priceMax)).map
    fun p => (p.2.price, p.1)).mergeSort candLE

/-- Mutable state of the inner per-buyer loop of the matcher:
`seller_remaining`, `total_bought`, `total_cost`, `purchases`. -/
structure BuyerAcc where
  rem : QMap
  bought : ℚ
  cost : ℚ
  purchases : List Purchase
deriving Repr, DecidableEq

/-- Inner loop `for price, seller, offer_data in available_sellers`
(`grid_node_agent.py` lines 655-696).  `T` is
`self.agent.transmission_limit_kw`; returning `acc` without recursing is
the `break`, recursing on `rest` with `acc` unchanged is the `continue`. -/
def buyLoop (T need : ℚ) : List (ℚ × String) → BuyerAcc → BuyerAcc
  | [], acc => acc
  | (price, s) :: rest, acc =>
    let available := qget acc.rem s
    let remainingNeed := need - acc.bought
    let remainingLimit := max 0 (T - acc.bought)
    if remainingNeed ≤ 0 ∨ remainingLimit ≤ 0 then acc
    else
      let intended := min available remainingNeed
      if intended ≤ 0 then buyLoop T need rest acc
      else
        let amount := min intended remainingLimit
        if amount ≤ 0 then acc
        else
          buyLoop T need rest
            { rem := qdec acc.rem s amount
              bought := acc.bought + amount
              cost := acc.cost + amount * price
              purchases := acc.purchases ++ [⟨s, amount, price⟩] }

/-- Outcome recorded for one buyer after its pass through the matcher. -/
structure BuyerResult where
  buyer : String
  need : ℚ
  priceMax : ℚ
  bought : ℚ
  cost : ℚ
  purchases : List Purchase
  countedFull : Bool
deriving Repr, DecidableEq

/-- State threaded through the per-round buyer iteration:
`seller_remaining`, the per-buyer outcomes in processing order, and
`buyer_received_kw`. -/
structure MatchState where
  rem : QMap
  results : List BuyerResult
  received : QMap
deriving Repr, DecidableEq

/-- Body of `for buyer, req_data in reqs` (`grid_node_agent.py` lines
627-792).  When nothing is bought the buyer is recorded as unmatched with
fulfillment 0; when something is bought the buyer is counted as a full
match when `100·bought/need ≥ thr` (the monolithic coordinator uses
`thr = 99.9`, the modular one `thr = 99.0`) and `buyer_received_kw` is set. -/
def processBuyer (T thr : ℚ) (offers : List (String × Offer))
    (st : MatchState) (b : String) (req : Request) : MatchState :=
  let cands := availableSellers offers st.rem req.priceMax
  if cands.isEmpty then
    { st with results := st.results ++
        [⟨b, req.need, req.priceMax, 0, 0, [], false⟩] }
  else
    let res := buyLoop T req.need cands ⟨st.rem, 0, 0, []⟩
    if 0 < res.bought then
      { rem := res.rem
        results := st.results ++
          [⟨b, req.need, req.priceMax, res.bought, res.cost, res.purchases,
            decide (res.bought / req.need * 100 ≥ thr)⟩]
        received := qset st.received b res.bought }
    else
      { st with rem := res.rem
                results := st.results ++
                  [⟨b, req.need, req.priceMax, 0, 0, [], false⟩] }

/-- The whole matching phase: `seller_remaining` seeded from the offers
(`seller_remaining[seller] = offer_data["offer_kwh"]`, lines 623-625),
`buyer_received_kw` seeded to 0 for every requesting buyer (line 621),
then the buyer loop in request-arrival order. -/
def matchRound (T thr : ℚ) (offers : List (String × Offer))
    (reqs : List (String × Request)) : MatchState :=
  reqs.foldl (fun st p => processBuyer T thr offers st p.1 p.2)
    ⟨offers.map fun p => (p.1, p.2.kwh), [], reqs.map fun p => (p.1, 0)⟩

/-- Total kWh a list of purchases takes from seller `s`. -/
def sumAmtTo (s : String) (ps : List Purchase) : ℚ :=
  ((ps.filter fun p => decide (p.seller = s)).map Purchase.amount).sum

/-- Total kWh of a list of purchases. -/
def totalAmt (ps : List Purchase) : ℚ := (ps.map Purchase.amount).sum

/-- Total kWh allocated from seller `s` across all buyers of the round. -/
def allocatedFrom (st : MatchState) (s : String) : ℚ :=
  (st.results.map fun r => sumAmtTo s r.purchases).sum

/-- Total kWh allocated to buyer `b` by the internal matching. -/
def allocatedToBuyer (st : MatchState) (b : String) : ℚ :=
  ((st.results.filter fun r => decide (r.buyer = b)).map
    fun r => totalAmt r.purchases).sum

/-- What the matcher guarantees about every recorded buyer outcome:
it stems from that buyer's request, every sub-allocation respects the
buyer's price cap, and the buyer is counted as a full match exactly when
something was bought and `100·bought/need` reaches the threshold. -/
def GoodR (thr : ℚ) (reqs : List (String × Request)) (r : BuyerResult) :
    Prop :=
  (∃ req : Request, (r.buyer, req) ∈ reqs ∧ r.need = req.need ∧
    r.priceMax = req.priceMax) ∧
  (∀ p ∈ r.purchases, p.price ≤ r.priceMax) ∧
  r.countedFull = decide (0 < r.bought ∧ r.bought / r.need * 100 ≥ thr)

/-! Section: External-grid step

Embedding of the external-grid interaction of
`GridNodeAgent.RoundOrchestrator.run` (`agents/grid_node_agent.py` lines
812-1010) for an available round: the `unmet_demand` list is computed from
the requests and `buyer_received_kw`, then served at the drawn
`external_grid_sell_price` subject to each buyer's price cap and remaining
transmission headroom; afterwards seller surplus above 0.5 kWh (excluding
emergency-only storage) is absorbed at the drawn buy price. -/

/-- One row of `unmet_demand` (lines 828-841).  The fulfillment percentage
also carried by the Python tuple is only used for log messages. -/
structure UnmetEntry where
  buyer : String
  need : ℚ
  remainingNeed : ℚ
  priceMax : ℚ
deriving Repr, DecidableEq

/-- `unmet_demand` list: buyers whose remaining need exceeds 0.01 kWh. -/
def unmetDemand (reqs : List (String × Request)) (received : QMap) :
    List UnmetEntry :=
  reqs.filterMap fun p =>
    if max 0 (p.2.need - qget received p.1) > 1/100 then
      some ⟨p.1, p.2.need, max 0 (p.2.need - qget received p.1),
        p.2.priceMax⟩
    else none

/-- An `energy_purchased` control command sent by the external grid step
(`from = "external_grid"`). -/
structure ExtDelivery where
  buyer : String
  kwh : ℚ
  price : ℚ
deriving Repr, DecidableEq

/-- External-grid serving state: `buyer_received_kw` plus the delivery
notifications and the running `ext_sold_total` / `ext_sold_value`. -/
structure ExtAcc where
  received : QMap
  deliveries : List ExtDelivery
  soldTotal : ℚ
  soldValue : ℚ
deriving Repr, DecidableEq

/-- The `for ... in unmet_demand` serving loop (lines 868-968): skip a
buyer whose price cap is below the sell price or whose transmission
headroom is exhausted, otherwise deliver
`min(remaining_need, remaining_limit)` and update `buyer_received_kw`. -/
def extServe (T sellPrice : ℚ) : List UnmetEntry → ExtAcc → ExtAcc
  | [], acc => acc
  | e :: rest, acc =>
    if sellPrice ≤ e.priceMax then
      let cur := qget acc.received e.buyer
      let remLimit := max 0 (T - cur)
      if remLimit ≤ 0 then extServe T sellPrice rest acc
      else
        let delivered := min e.remainingNeed remLimit
        if delivered ≤ 0 then extServe T sellPrice rest acc
        else
          extServe T sellPrice rest
            { received := qset acc.received e.buyer (cur + delivered)
              deliveries := acc.deliveries ++ [⟨e.buyer, delivered, sellPrice⟩]
              soldTotal := acc.soldTotal + delivered
              soldValue := acc.soldValue + delivered * sellPrice }
    else extServe T sellPrice rest acc

/-- The whole external-grid serving phase run after matching. -/
def externalStep (T sellPrice : ℚ) (reqs : List (String × Request))
    (st : MatchState) : ExtAcc :=
  extServe T sellPrice (unmetDemand reqs st.received) ⟨st.received, [], 0, 0⟩

/-- Total kWh the external grid delivered to buyer `b`. -/
def deliveredTo (b : String) (ds : List ExtDelivery) : ℚ :=
  ((ds.filter fun d => decide (d.buyer = b)).map ExtDelivery.kwh).sum

/-! Section: Blackout flag (performance tracking) -/

/-- Average fulfillment over `buyer_fulfillment`, as computed both by the
fallback in `PerformanceTracker.record_round` (`performance_metrics.py`
lines 104-111) and by the modular orchestrator (`orchestrator.py` lines
706-710): the mean of the values, `0` for an empty dict. -/
def avgFulfillment (f : List (String × ℚ)) : ℚ :=
  if f.isEmpty then 0 else (f.map Prod.snd).sum / f.length

/-- `blackout_impacted` (`orchestrator.py` lines 703-705): how many buyers
finished the round below 99.0 % fulfillment. -/
def blackoutImpacted (f : List (String × ℚ)) : ℕ :=
  f.countP fun p => decide (p.2 < 99)

/-- `blackout_round` (`orchestrator.py` line 711): true iff at least one
buyer is below 99.0 %. -/
def blackoutRoundFlag (f : List (String × ℚ)) : Bool :=
  decide (0 < blackoutImpacted f)

/-- The blackout flag `record_round` counts (`performance_metrics.py`
lines 113-116): the flag already present in the round data when there is
one, otherwise the fallback `avg_fulfillment < 99.0`. -/
def recordBlackout (given : Option Bool) (f : List (String × ℚ)) : Bool :=
  given.getD (decide (avgFulfillment f < 99))

/-- Blackout flag recorded for a round driven by the modular orchestrator,
whose round data carries `blackout := blackout_impacted > 0`
(`orchestrator.py` lines 711-734). -/
def recordedBlackoutModular (f : List (String × ℚ)) : Bool :=
  recordBlackout (some (blackoutRoundFlag f)) f

/-- Blackout flag recorded for a round driven by the monolithic
`grid_node_agent.py`, whose round data carries no `blackout` key
(lines 1062-1079), so `record_round` falls back to the average rule. -/
def recordedBlackoutMonolithic (f : List (String × ℚ)) : Bool :=
  recordBlackout none f

/-! Section: Surplus absorption by the external grid -/

/-- `surplus_energy` (`grid_node_agent.py` lines 843-851): sellers whose
`seller_remaining` exceeds 0.5 kWh after matching, except emergency-only
storage units. -/
def surplusEnergy (rem : QMap) (isEmergencyStorage : String → Bool) :
    QMap :=
  rem.filter fun p => decide (p.2 > 1/2) && !isEmergencyStorage p.1

/-- An `offer_accept` notification with `buyer = "external_grid"` sent for
an absorbed surplus (lines 979-1010). -/
structure ExtSale where
  seller : String
  kwh : ℚ
  price : ℚ
deriving Repr, DecidableEq

/-- The absorption loop: one notification per surplus entry, at the
round's external-grid buy price. -/
def extAbsorbSales (buyPrice : ℚ) (surplus : QMap) : List ExtSale :=
  surplus.map fun p => ⟨p.1, p.2, buyPrice⟩

/-- Increment of `ext_grid_total_bought_kwh` over the absorption loop. -/
def extBoughtTotal (surplus : QMap) : ℚ := (surplus.map Prod.snd).sum

/-- Increment of `ext_grid_costs` over the absorption loop. -/
def extBoughtValue (buyPrice : ℚ) (surplus : QMap) : ℚ :=
  (surplus.map fun p => p.2 * buyPrice).sum

/-! Section: Producer failure bookkeeping

Embedding of the coordinator state that the `production_report` merge
(`agents/grid_node/receivers.py` lines 55-101, identical in
`grid_node_agent.py` lines 263-309) and `_check_and_trigger_failure`
(`grid_node_agent.py` lines 164-211) mutate: the `producers_state` dict,
restricted to the fields those two routines read and write. -/

/-- The failure-relevant slice of one `producers_state` entry:
`is_operational`, `failure_rounds_remaining`, `failure_rounds_total`,
`prod_kwh`. -/
structure PState where
  op : Bool
  remaining : ℕ
  total : ℕ
  prod : ℚ
deriving Repr, DecidableEq

/-- The corresponding fields of an incoming `production_report` body. -/
structure Report where
  op : Bool
  remaining : ℕ
  total : ℕ
  prod : ℚ
deriving Repr, DecidableEq

/-- Storing a report verbatim (`producers_state[sender] = data`). -/
def reportToState (rep : Report) : PState :=
  ⟨rep.op, rep.remaining, rep.total, rep.prod⟩

/-- The `production_report` merge: for a producer the coordinator holds as
non-operational, decrement `failure_rounds_remaining`; if it hits zero
restore `is_operational` and accept the report's production, otherwise
keep the producer offline with zero production; producers not marked
offline (and unknown senders) get the report stored verbatim. -/
def mergeEntry : Option PState → Report → PState
  | some st, rep =>
    if st.op then reportToState rep
    else if 0 < st.remaining then
      if st.remaining - 1 = 0 then
        { reportToState rep with op := true, remaining := 0 }
      else ⟨false, st.remaining - 1, st.total, 0⟩
    else { reportToState rep with op := true }
  | none, rep => reportToState rep

/-- Pointwise value update of an association list, keys untouched
(the generic form of `qmod`). -/
def mapVals {α : Type} (l : List (String × α)) (f : String → α → α) :
    List (String × α) :=
  l.map fun p => (p.1, f p.1 p.2)

/-- Python dict assignment `d[k] = v`: overwrite the entry in place when
the key exists, else append the new key at the end. -/
def dictSet {α : Type} (l : List (String × α)) (k : String) (v : α) :
    List (String × α) :=
  if (l.lookup k).isSome then mapVals l fun s w => if s = k then v else w
  else l ++ [(k, v)]

/-- Effect of one `production_report` from `j` on `producers_state`. -/
def mergeReport (m : List (String × PState)) (j : String) (rep : Report) :
    List (String × PState) :=
  dictSet m j (mergeEntry (m.lookup j) rep)

/-- `any_producer_failed` recomputed as the disjunction over producers. -/
def anyFailed (m : List (String × PState)) : Bool :=
  m.any fun p => !p.2.op

/-- Number of producers the coordinator holds as non-operational. -/
def countFailed (m : List (String × PState)) : ℕ :=
  m.countP fun p => !p.2.op

/-- The failure-injection loop of `_check_and_trigger_failure`
(`grid_node_agent.py` lines 197-211): walk producers in insertion order;
the first operational one whose random draw fires is failed for `dur`
rounds (`failure_rounds_remaining = failure_rounds_total = dur`,
`prod_kwh = 0`) and the loop breaks.  `coins j` models
`random.random() < self.producer_failure_probability` for producer `j`. -/
def failFirst (coins : String → Bool) (dur : ℕ) :
    List (String × PState) → List (String × PState)
  | [] => []
  | (j, st) :: rest =>
    if st.op && coins j then (j, ⟨false, dur, dur, 0⟩) :: rest
    else (j, st) :: failFirst coins dur rest

/-- `_check_and_trigger_failure` (lines 164-211): do nothing unless some
storage unit has `soc_kwh ≥ 0.99·cap_kwh` (abstracted as `storageFull`);
recompute `any_producer_failed` and do nothing when a producer is already
failed; otherwise try to inject one failure. -/
def checkAndTriggerFailure (storageFull : Bool) (coins : String → Bool)
    (dur : ℕ) (m : List (String × PState)) : List (String × PState) :=
  if !storageFull then m
  else if anyFailed m then m
  else failFirst coins dur m

/-- The two coordinator transitions that touch `producers_state`. -/
inductive CoordAction where
  | report (jid : String) (rep : Report)
  | failureStep (storageFull : Bool) (coins : String → Bool) (dur : ℕ)

/-- One coordinator transition applied to `producers_state`. -/
def coordStep (m : List (String × PState)) : CoordAction →
    List (String × PState)
  | .report j rep => mergeReport m j rep
  | .failureStep sf coins dur => checkAndTriggerFailure sf coins dur m

/-- `producers_state` after a sequence of transitions from startup
(the dict starts empty). -/
def coordRun (acts : List CoordAction) : List (String × PState) :=
  acts.foldl coordStep []

/-- Restriction satisfied by every `production_report` this system's
producers actually emit: `producer_agent.py` initializes
`is_operational = True` and never assigns it `False` (the only write is
the recovery `is_operational = True`, line 220), so every report body
carries `is_operational = true`. -/
def reportsOperational : CoordAction → Prop
  | .report _ rep => rep.op = true
  | .failureStep _ _ _ => True

/-- The producer's own failure-recovery update on an `environment_update`
(`producer_agent.py` lines 207-221), as a function of its
`(is_operational, failure_rounds_remaining)` pair; `tick` is true when a
new round id allows a decrement. -/
def producerEnvStep (tick : Bool) (st : Bool × ℕ) : Bool × ℕ :=
  if st.1 then st
  else if tick ∧ 0 < st.2 then
    if st.2 - 1 = 0 then (true, 0) else (false, st.2 - 1)
  else st

/-! Section: Offer ingestion (Receiver, `energy_offer` branch)

Embedding of the `energy_offer` case of the Receiver
(`agents/grid_node/receivers.py` lines 127-154, identical in
`grid_node_agent.py` lines 335-362). -/

/-- Receiver-side context when `energy_offer` messages arrive: the current
round id `R`, the round deadline (`round_deadline_ts`, still `0.0` before
the first CFP), and the coordinator's view of each sender's
`is_operational` flag (`none` when the sender has no `producers_state`
entry). -/
structure OfferCtx where
  roundId : ℚ
  deadline : ℚ
  producerOp : String → Option Bool

/-- The fields of an incoming `energy_offer` the Receiver uses; `arrival`
is `time.time()` when the message is handled. -/
structure OfferMsg where
  sender : String
  roundId : ℚ
  offerKwh : ℚ
  price : ℚ
  arrival : ℚ
deriving Repr, DecidableEq

/-- What the Receiver does with one `energy_offer`. -/
inductive OfferOutcome where
  | accepted
  | droppedOffline
  | late
deriving Repr, DecidableEq

/-- The `energy_offer` branch: an offer whose sender is a producer the
coordinator marks non-operational is dropped by an early `return`;
otherwise it is stored when the round id matches, a deadline is set and
the arrival beats it, and logged as `late` in every other case. -/
def classifyOffer (ctx : OfferCtx) (m : OfferMsg) : OfferOutcome :=
  if ctx.producerOp m.sender = some false then .droppedOffline
  else if m.roundId = ctx.roundId ∧ 0 < ctx.deadline ∧
      m.arrival ≤ ctx.deadline then .accepted
  else .late

/-- Audit-log events the `energy_offer` branch appends. -/
inductive OfferEvent where
  | offer (seller : String) (kwh price rid : ℚ)
  | late (seller : String) (kwh price rid : ℚ)
deriving Repr, DecidableEq

/-- The events produced for one `energy_offer`: an `offer` event on
acceptance, a `late` event on rejection — and nothing at all when the
sender is a producer marked non-operational. -/
def offerEvents (ctx : OfferCtx) (m : OfferMsg) : List OfferEvent :=
  match classifyOffer ctx m with
  | .accepted => [.offer m.sender m.offerKwh m.price ctx.roundId]
  | .droppedOffline => []
  | .late => [.late m.sender m.offerKwh m.price m.roundId]

/-- Effect of one `energy_offer` on `offers_round[R]`
(`offers_round[R][seller] = {"offer_kwh": ..., "price": ..., "ts": now}`;
the stored timestamp is not modelled): dict overwrite on acceptance,
unchanged otherwise. -/
def processOffer (ctx : OfferCtx) (ledger : List (String × Offer))
    (m : OfferMsg) : List (String × Offer) :=
  match classifyOffer ctx m with
  | .accepted => dictSet ledger m.sender ⟨m.offerKwh, m.price⟩
  | _ => ledger

/-- `offers_round[R]` after the Receiver handles a message sequence. -/
def processOffers (ctx : OfferCtx) (ms : List OfferMsg)
    (ledger : List (String × Offer)) : List (String × Offer) :=
  ms.foldl (processOffer ctx) ledger

/-- The most recent `energy_offer` from seller `s` that passed the
acceptance checks, over a message sequence. -/
def lastAcceptedFrom (ctx : OfferCtx) (ms : List OfferMsg) (s : String) :
    Option OfferMsg :=
  (ms.filter fun m =>
    decide (classifyOffer ctx m = .accepted) && decide (m.sender = s)).getLast?

/-! Section: Lemmas and claim theorems -/

theorem keys_qmod (m : QMap) (f : String → ℚ → ℚ) :
    (qmod m f).map Prod.fst = m.map Prod.fst := by
  induction m with
  | nil => rfl
  | cons p rest ih => simp only [qmod, List.map_cons] at *; simp [ih]

theorem lookup_qmod (m : QMap) (f : String → ℚ → ℚ) (t : String) :
    (qmod m f).lookup t = (m.lookup t).map (f t) := by
  induction m with
  | nil => rfl
  | cons p rest ih =>
    rcases p with ⟨pk, pv⟩
    by_cases h : t = pk
    · subst h; simp [qmod, List.lookup, ih]
    · have hbeq : (t == pk) = false := beq_false_of_ne h
      simp only [qmod, List.map_cons] at *
      simp [List.lookup, hbeq, ih]

theorem qget_qdec_ne (m : QMap) (k : String) (a : ℚ) (t : String) (h : t ≠ k) :
    qget (qdec m k a) t = qget m t := by
  simp only [qget, qdec, lookup_qmod]
  rcases m.lookup t with _ | v <;> simp [h]

theorem qget_qdec_self (m : QMap) (k : String) (a : ℚ)
    (h : (m.lookup k).isSome) : qget (qdec m k a) k = qget m k - a := by
  rcases ho : m.lookup k with _ | v
  · rw [ho] at h; simp at h
  · simp [qget, qdec, lookup_qmod, ho]

theorem qget_qset_ne (m : QMap) (k : String) (v : ℚ) (t : String) (h : t ≠ k) :
    qget (qset m k v) t = qget m t := by
  simp only [qget, qset, lookup_qmod]
  rcases m.lookup t with _ | w <;> simp [h]

theorem qget_qset_self (m : QMap) (k : String) (v : ℚ)
    (h : (m.lookup k).isSome) : qget (qset m k v) k = v := by
  rcases ho : m.lookup k with _ | w
  · rw [ho] at h; simp at h
  · simp [qget, qset, lookup_qmod, ho]

theorem lookup_isSome_qdec (m : QMap) (k : String) (a : ℚ) (t : String) :
    ((qdec m k a).lookup t).isSome = (m.lookup t).isSome := by
  simp [qdec, lookup_qmod]

theorem lookup_isSome_qset (m : QMap) (k : String) (v : ℚ) (t : String) :
    ((qset m k v).lookup t).isSome = (m.lookup t).isSome := by
  simp [qset, lookup_qmod]

theorem qget_pos_isSome (m : QMap) (k : String) (h : 0 < qget m k) :
    (m.lookup k).isSome := by
  rcases ho : m.lookup k with _ | v
  · simp [qget, ho] at h
  · simp

theorem sumAmtTo_append (s : String) (ps qs : List Purchase) :
    sumAmtTo s (ps ++ qs) = sumAmtTo s ps + sumAmtTo s qs := by
  simp [sumAmtTo, List.filter_append]

theorem totalAmt_append (ps qs : List Purchase) :
    totalAmt (ps ++ qs) = totalAmt ps + totalAmt qs := by
  simp [totalAmt]

/-- Generic seeding lemma: looking a key up in a value-mapped association
list returns the mapped original value. -/
theorem lookup_mapVal {α β : Type} (l : List (String × α)) (f : α → β)
    (t : String) :
    (l.map fun p => (p.1, f p.2)).lookup t = (l.lookup t).map f := by
  induction l with
  | nil => rfl
  | cons p rest ih =>
    rcases p with ⟨pk, pv⟩
    by_cases h : t = pk
    · subst h; simp [List.lookup]
    · have hbeq : (t == pk) = false := beq_false_of_ne h
      simp [List.lookup, hbeq, ih]

theorem buyLoop_rem_conserve (T need : ℚ) (l : List (ℚ × String))
    (acc : BuyerAcc) (s : String) :
    qget (buyLoop T need l acc).rem s +
      sumAmtTo s (buyLoop T need l acc).purchases =
    qget acc.rem s + sumAmtTo s acc.purchases := by
  induction l generalizing acc with
  | nil => simp [buyLoop]
  | cons c rest ih =>
    rcases c with ⟨price, cs⟩
    simp only [buyLoop]
    split_ifs with h1 h2 h3
    · rfl
    · exact ih acc
    · rfl
    · rw [ih]
      have hpos : (0:ℚ) <
          min (min (qget acc.rem cs) (need - acc.bought))
            (max 0 (T - acc.bought)) := lt_of_not_ge h3
      have havail : (0:ℚ) < qget acc.rem cs := by
        have := hpos.trans_le (min_le_left _ _)
        exact this.trans_le (min_le_left _ _)
      have hsome := qget_pos_isSome acc.rem cs havail
      by_cases hss : s = cs
      · subst hss
        rw [qget_qdec_self _ _ _ hsome, sumAmtTo_append]
        simp [sumAmtTo]
      · rw [qget_qdec_ne _ _ _ _ hss, sumAmtTo_append]
        simp [sumAmtTo, Ne.symm hss]

theorem buyLoop_bought_sub_total (T need : ℚ) (l : List (ℚ × String))
    (acc : BuyerAcc) :
    (buyLoop T need l acc).bought - totalAmt (buyLoop T need l acc).purchases
      = acc.bought - totalAmt acc.purchases := by
  induction l generalizing acc with
  | nil => simp [buyLoop]
  | cons c rest ih =>
    rcases c with ⟨price, cs⟩
    simp only [buyLoop]
    split_ifs with h1 h2 h3
    · rfl
    · exact ih acc
    · rfl
    · rw [ih, totalAmt_append]
      simp [totalAmt]

theorem buyLoop_bought_le (T need : ℚ) (l : List (ℚ × String))
    (acc : BuyerAcc) (h : acc.bought ≤ T) :
    (buyLoop T need l acc).bought ≤ T := by
  induction l generalizing acc with
  | nil => simpa [buyLoop]
  | cons c rest ih =>
    rcases c with ⟨price, cs⟩
    simp only [buyLoop]
    split_ifs with h1 h2 h3
    · exact h
    · exact ih acc h
    · exact h
    · apply ih
      have hlim : ¬ max 0 (T - acc.bought) ≤ 0 := by
        rcases not_or.mp h1 with ⟨-, hb⟩
        exact hb
      have hTb : (0:ℚ) < T - acc.bought := by
        by_contra hc
        push_neg at hc
        exact hlim (by simp [max_eq_left hc])
      have hmax : max 0 (T - acc.bought) = T - acc.bought :=
        max_eq_right hTb.le
      have hamt : min (min (qget acc.rem cs) (need - acc.bought))
          (max 0 (T - acc.bought)) ≤ T - acc.bought := by
        rw [hmax]
        exact min_le_right _ _
      simp only [BuyerAcc.bought]
      linarith

theorem buyLoop_bought_mono (T need : ℚ) (l : List (ℚ × String))
    (acc : BuyerAcc) : acc.bought ≤ (buyLoop T need l acc).bought := by
  induction l generalizing acc with
  | nil => simp [buyLoop]
  | cons c rest ih =>
    rcases c with ⟨price, cs⟩
    simp only [buyLoop]
    split_ifs with h1 h2 h3
    · exact le_refl _
    · exact ih acc
    · exact le_refl _
    · refine le_trans ?_ (ih _)
      have hpos : (0:ℚ) <
          min (min (qget acc.rem cs) (need - acc.bought))
            (max 0 (T - acc.bought)) := lt_of_not_ge h3
      simp only [BuyerAcc.bought]
      linarith

theorem buyLoop_eq_of_bought_le (T need : ℚ) (l : List (ℚ × String))
    (acc : BuyerAcc) (h : (buyLoop T need l acc).bought ≤ acc.bought) :
    buyLoop T need l acc = acc := by
  induction l generalizing acc with
  | nil => simp [buyLoop]
  | cons c rest ih =>
    rcases c with ⟨price, cs⟩
    simp only [buyLoop] at h ⊢
    split_ifs at h ⊢ with h1 h2 h3
    · rfl
    · exact ih acc h
    · rfl
    · exfalso
      have hpos : (0:ℚ) <
          min (min (qget acc.rem cs) (need - acc.bought))
            (max 0 (T - acc.bought)) := lt_of_not_ge h3
      have hmono := buyLoop_bought_mono T need rest
        { rem := qdec acc.rem cs
            (min (min (qget acc.rem cs) (need - acc.bought))
              (max 0 (T - acc.bought)))
          bought := acc.bought +
            min (min (qget acc.rem cs) (need - acc.bought))
              (max 0 (T - acc.bought))
          cost := acc.cost +
            min (min (qget acc.rem cs) (need - acc.bought))
              (max 0 (T - acc.bought)) * price
          purchases := acc.purchases ++
            [⟨cs, min (min (qget acc.rem cs) (need - acc.bought))
              (max 0 (T - acc.bought)), price⟩] }
      simp only [BuyerAcc.bought] at hmono h
      linarith

theorem buyLoop_purchases_price (T need pm : ℚ) (l : List (ℚ × String))
    (acc : BuyerAcc) (hc : ∀ c ∈ l, c.1 ≤ pm) :
    ∀ p ∈ (buyLoop T need l acc).purchases,
      p ∈ acc.purchases ∨ p.price ≤ pm := by
  induction l generalizing acc with
  | nil => intro p hp; simp [buyLoop] at hp; exact Or.inl hp
  | cons c rest ih =>
    rcases c with ⟨price, cs⟩
    intro p hp
    simp only [buyLoop] at hp
    split_ifs at hp with h1 h2 h3
    · exact Or.inl hp
    · exact ih acc (fun c hcm => hc c (List.mem_cons_of_mem _ hcm)) p hp
    · exact Or.inl hp
    · rcases ih _ (fun c hcm => hc c (List.mem_cons_of_mem _ hcm)) p hp with
        hmem | hle
      · simp only [List.mem_append, List.mem_singleton] at hmem
        rcases hmem with hmem | rfl
        · exact Or.inl hmem
        · exact Or.inr (by simpa using hc (price, cs) (List.mem_cons_self _ _))
      · exact Or.inr hle

theorem availableSellers_price_le (offers : List (String × Offer))
    (rem : QMap) (pm : ℚ) :
    ∀ c ∈ availableSellers offers rem pm, c.1 ≤ pm := by
  intro c hc
  have hmem : c ∈ (offers.filter fun p =>
      decide (qget rem p.1 > 1/100) && decide (p.2.price ≤ pm)).map
        fun p => (p.2.price, p.1) :=
    ((List.mergeSort_perm _ candLE).mem_iff).mp hc
  rcases List.mem_map.mp hmem with ⟨p, hp, rfl⟩
  have hfil := List.of_mem_filter hp
  simp only [Bool.and_eq_true, decide_eq_true_eq] at hfil
  exact hfil.2

theorem processBuyer_conserve (T thr : ℚ) (offers : List (String × Offer))
    (st : MatchState) (b : String) (req : Request) (s : String) :
    allocatedFrom (processBuyer T thr offers st b req) s +
      qget (processBuyer T thr offers st b req).rem s =
    allocatedFrom st s + qget st.rem s := by
  simp only [processBuyer]
  split_ifs with h1 h2
  · simp [allocatedFrom, sumAmtTo]
  · have hcons := buyLoop_rem_conserve T req.need
      (availableSellers offers st.rem req.priceMax) ⟨st.rem, 0, 0, []⟩ s
    have hz : sumAmtTo s ([] : List Purchase) = 0 := rfl
    dsimp only at hcons
    rw [hz, add_zero] at hcons
    simp only [allocatedFrom, List.map_append, List.sum_append,
      List.map_cons, List.map_nil, List.sum_cons, List.sum_nil]
    linarith [hcons]
  · have hle : (buyLoop T req.need
        (availableSellers offers st.rem req.priceMax)
        ⟨st.rem, 0, 0, []⟩).bought ≤
        (BuyerAcc.mk st.rem 0 0 []).bought := by
      simpa using le_of_not_lt h2
    have heq := buyLoop_eq_of_bought_le T req.need
      (availableSellers offers st.rem req.priceMax) ⟨st.rem, 0, 0, []⟩ hle
    simp [allocatedFrom, sumAmtTo, heq]

theorem matchFold_conserve (T thr : ℚ) (offers : List (String × Offer))
    (reqs : List (String × Request)) (st : MatchState) (s : String) :
    allocatedFrom
        (reqs.foldl (fun st p => processBuyer T thr offers st p.1 p.2) st) s +
      qget
        (reqs.foldl (fun st p => processBuyer T thr offers st p.1 p.2) st).rem
        s =
    allocatedFrom st s + qget st.rem s := by
  induction reqs generalizing st with
  | nil => rfl
  | cons p rest ih =>
    rw [List.foldl_cons, ih, processBuyer_conserve]

/-- Claim C2. For every round and every seller `s` whose offer was accepted
into that round's offers, at the end of matching the energy allocated from
`s` across all buyers plus `s`'s `seller_remaining` equals the kWh that
`s` offered (`seller_remaining[seller] = offer_data["offer_kwh"]` seeding
plus the loop's `seller_remaining[seller] -= amount`,
`agents/grid_node_agent.py` lines 623-696). -/
theorem seller_energy_conservation (T thr : ℚ)
    (offers : List (String × Offer)) (reqs : List (String × Request))
    (s : String) (o : Offer) (ho : offers.lookup s = some o) :
    allocatedFrom (matchRound T thr offers reqs) s +
      qget (matchRound T thr offers reqs).rem s = o.kwh := by
  have hseed : qget (offers.map fun p => (p.1, p.2.kwh)) s = o.kwh := by
    simp [qget, lookup_mapVal, ho]
  rw [matchRound, matchFold_conserve]
  simpa [allocatedFrom] using hseed

/-- Witness for C2: a concrete two-seller, one-buyer round.  The buyer
takes the full 2 kWh from the cheaper seller `A`; `A` ends with 0 kWh
remaining and `B` keeps its 3 kWh. -/
theorem seller_energy_conservation_witness :
    ([("A", (⟨2, 18/100⟩ : Offer)), ("B", ⟨3, 22/100⟩)].lookup "B" =
        some (⟨3, 22/100⟩ : Offer)) ∧
    allocatedFrom
        (matchRound 3 (999/10) [("A", ⟨2, 18/100⟩), ("B", ⟨3, 22/100⟩)]
          [("buyer", ⟨2, 30/100⟩)]) "B" +
      qget
        (matchRound 3 (999/10) [("A", ⟨2, 18/100⟩), ("B", ⟨3, 22/100⟩)]
          [("buyer", ⟨2, 30/100⟩)]).rem "B" = (3 : ℚ) :=
  ⟨by rfl,
   seller_energy_conservation 3 (999/10)
    [("A", ⟨2, 18/100⟩), ("B", ⟨3, 22/100⟩)] [("buyer", ⟨2, 30/100⟩)]
    "B" ⟨3, 22/100⟩ (by rfl)⟩

theorem mergeSort_single {α : Type} (le : α → α → Bool) (a : α) :
    List.mergeSort [a] le = [a] :=
  List.perm_singleton.mp (List.mergeSort_perm [a] le)

theorem processBuyer_results (T thr : ℚ) (offers : List (String × Offer))
    (st : MatchState) (b : String) (req : Request) :
    ∃ r : BuyerResult,
      (processBuyer T thr offers st b req).results = st.results ++ [r] ∧
      r.buyer = b ∧ r.need = req.need ∧ r.priceMax = req.priceMax ∧
      (∀ p ∈ r.purchases, p.price ≤ req.priceMax) ∧
      r.countedFull =
        decide (0 < r.bought ∧ r.bought / r.need * 100 ≥ thr) := by
  simp only [processBuyer]
  split_ifs with h1 h2
  · exact ⟨_, rfl, rfl, rfl, rfl, by simp, by simp⟩
  · refine ⟨_, rfl, rfl, rfl, rfl, ?_, ?_⟩
    · intro p hp
      rcases buyLoop_purchases_price T req.need req.priceMax _
          ⟨st.rem, 0, 0, []⟩
          (availableSellers_price_le offers st.rem req.priceMax) p hp with
        hmem | hle
      · simp at hmem
      · exact hle
    · simp only [BuyerResult.countedFull, BuyerResult.bought,
        BuyerResult.need]
      exact (decide_eq_decide.mpr (and_iff_right h2)).symm
  · exact ⟨_, rfl, rfl, rfl, rfl, by simp, by simp⟩

theorem matchFold_results_spec (T thr : ℚ) (offers : List (String × Offer))
    (reqs suf : List (String × Request)) (st : MatchState)
    (hsub : ∀ p ∈ suf, p ∈ reqs)
    (hst : ∀ r ∈ st.results, GoodR thr reqs r) :
    ∀ r ∈
      (suf.foldl (fun st p => processBuyer T thr offers st p.1 p.2)
        st).results, GoodR thr reqs r := by
  induction suf generalizing st with
  | nil => exact hst
  | cons q rest ih =>
    rw [List.foldl_cons]
    refine ih _ (fun p hp => hsub p (List.mem_cons_of_mem _ hp)) ?_
    obtain ⟨r, heq, hbuyer, hneed, hpm, hprice, hfull⟩ :=
      processBuyer_results T thr offers st q.1 q.2
    rw [heq]
    intro r2 hr2
    rcases List.mem_append.mp hr2 with hold | hnew
    · exact hst r2 hold
    · have hr : r2 = r := List.mem_singleton.mp hnew
      subst hr
      refine ⟨⟨q.2, ?_, hneed, hpm⟩, ?_, hfull⟩
      · rw [hbuyer]
        exact hsub q (List.mem_cons_self _ _)
      · rw [hpm]
        exact hprice

theorem matchRound_results_spec (T thr : ℚ) (offers : List (String × Offer))
    (reqs : List (String × Request)) :
    ∀ r ∈ (matchRound T thr offers reqs).results, GoodR thr reqs r := by
  apply matchFold_results_spec T thr offers reqs reqs _ (fun p hp => hp)
  intro r hr
  simp at hr

theorem lookup_isSome_iff_mem_keys {α : Type} (l : List (String × α))
    (b : String) : (l.lookup b).isSome ↔ b ∈ l.map Prod.fst := by
  induction l with
  | nil => simp [List.lookup]
  | cons p rest ih =>
    rcases p with ⟨pk, pv⟩
    by_cases h : b = pk
    · subst h; simp [List.lookup]
    · have hbeq : (b == pk) = false := beq_false_of_ne h
      simp [List.lookup, hbeq, ih, h]

theorem qget_seed_zero (reqs : List (String × Request)) (b : String) :
    qget (reqs.map fun p => (p.1, (0 : ℚ))) b = 0 := by
  induction reqs with
  | nil => rfl
  | cons p rest ih =>
    by_cases h : b = p.1
    · simp [qget, List.lookup, h]
    · have hbeq : (b == p.1) = false := beq_false_of_ne h
      simpa [qget, List.lookup, hbeq] using ih

theorem qget_qset_cases (m : QMap) (k : String) (v : ℚ) (t : String) :
    qget (qset m k v) t = v ∨ qget (qset m k v) t = qget m t := by
  by_cases h : t = k
  · subst h
    rcases ho : (m.lookup t).isSome with hval | hval
    · right
      rw [qget, qset, lookup_qmod]
      rcases hlk : m.lookup t with _ | w
      · simp [qget, hlk]
      · rw [hlk] at ho; simp at ho
    · left
      exact qget_qset_self m t v ho
  · right
    exact qget_qset_ne m k v t h

theorem processBuyer_received_other (T thr : ℚ)
    (offers : List (String × Offer)) (st : MatchState) (b b2 : String)
    (req : Request) (hne : b ≠ b2) :
    qget (processBuyer T thr offers st b2 req).received b =
        qget st.received b ∧
      (processBuyer T thr offers st b2 req).results.filter
          (fun r => decide (r.buyer = b)) =
        st.results.filter (fun r => decide (r.buyer = b)) := by
  have hne2 : b2 ≠ b := Ne.symm hne
  simp only [processBuyer]
  split_ifs with h1 h2
  · exact ⟨rfl, by simp [List.filter_append, hne2]⟩
  · exact ⟨qget_qset_ne _ _ _ _ hne,
      by simp [List.filter_append, hne2]⟩
  · exact ⟨rfl, by simp [List.filter_append, hne2]⟩

theorem processBuyer_received_isSome (T thr : ℚ)
    (offers : List (String × Offer)) (st : MatchState) (b2 : String)
    (req : Request) (b : String) :
    ((processBuyer T thr offers st b2 req).received.lookup b).isSome =
      (st.received.lookup b).isSome := by
  simp only [processBuyer]
  split_ifs with h1 h2
  · rfl
  · exact lookup_isSome_qset _ _ _ _
  · rfl

theorem processBuyer_received_self (T thr : ℚ)
    (offers : List (String × Offer)) (st : MatchState) (b : String)
    (req : Request) (hkey : (st.received.lookup b).isSome)
    (hres : st.results.filter (fun r => decide (r.buyer = b)) = [])
    (hrecv : qget st.received b = 0) :
    qget (processBuyer T thr offers st b req).received b =
      allocatedToBuyer (processBuyer T thr offers st b req) b := by
  simp only [processBuyer, allocatedToBuyer]
  split_ifs with h1 h2
  · simp [List.filter_append, hres, totalAmt, hrecv]
  · rw [qget_qset_self _ _ _ hkey]
    have hsub := buyLoop_bought_sub_total T req.need
      (availableSellers offers st.rem req.priceMax) ⟨st.rem, 0, 0, []⟩
    have hz : totalAmt ([] : List Purchase) = 0 := rfl
    dsimp only at hsub
    rw [hz] at hsub
    simp only [totalAmt] at hsub
    simp [List.filter_append, hres, totalAmt]
    linarith [hsub]
  · simp [List.filter_append, hres, totalAmt, hrecv]

theorem matchFold_received_preserve (T thr : ℚ)
    (offers : List (String × Offer)) (suf : List (String × Request))
    (st : MatchState) (b : String) (hb : b ∉ suf.map Prod.fst) :
    qget
        ((suf.foldl (fun st p => processBuyer T thr offers st p.1 p.2)
          st)).received b = qget st.received b ∧
      ((suf.foldl (fun st p => processBuyer T thr offers st p.1 p.2)
          st)).results.filter (fun r => decide (r.buyer = b)) =
        st.results.filter (fun r => decide (r.buyer = b)) := by
  induction suf generalizing st with
  | nil => exact ⟨rfl, rfl⟩
  | cons q rest ih =>
    have hbq : b ≠ q.1 := by
      intro h
      exact hb (by simp [h])
    have hbrest : b ∉ rest.map Prod.fst := by
      intro h
      exact hb (by simp [h])
    rw [List.foldl_cons]
    obtain ⟨ih1, ih2⟩ := ih (processBuyer T thr offers st q.1 q.2) hbrest
    obtain ⟨p1, p2⟩ :=
      processBuyer_received_other T thr offers st b q.1 q.2 hbq
    exact ⟨ih1.trans p1, ih2.trans p2⟩

theorem matchFold_received_isSome (T thr : ℚ)
    (offers : List (String × Offer)) (suf : List (String × Request))
    (st : MatchState) (b : String) :
    (((suf.foldl (fun st p => processBuyer T thr offers st p.1 p.2)
        st)).received.lookup b).isSome = (st.received.lookup b).isSome := by
  induction suf generalizing st with
  | nil => rfl
  | cons q rest ih =>
    rw [List.foldl_cons, ih, processBuyer_received_isSome]

theorem keys_seed (reqs : List (String × Request)) :
    (reqs.map fun p => (p.1, (0 : ℚ))).map Prod.fst = reqs.map Prod.fst := by
  simp

theorem matchRound_received_eq (T thr : ℚ) (offers : List (String × Offer))
    (reqs : List (String × Request)) (hnd : (reqs.map Prod.fst).Nodup)
    (b : String) (req : Request) (hb : (b, req) ∈ reqs) :
    qget (matchRound T thr offers reqs).received b =
      allocatedToBuyer (matchRound T thr offers reqs) b := by
  obtain ⟨pre, suf, hsplit⟩ := List.append_of_mem hb
  subst hsplit
  have hkeys : (pre.map Prod.fst ++ b :: suf.map Prod.fst).Nodup := by
    simpa using hnd
  have hbpre : b ∉ pre.map Prod.fst := by
    intro hmem
    exact (List.nodup_append.mp hkeys).2.2 hmem (List.mem_cons_self _ _)
  have hbsuf : b ∉ suf.map Prod.fst :=
    (List.nodup_cons.mp (List.nodup_append.mp hkeys).2.1).1
  have hbkeys : b ∈ (pre ++ (b, req) :: suf).map Prod.fst :=
    List.mem_map_of_mem _ hb
  have hseedSome :
      ((((pre ++ (b, req) :: suf).map fun p => (p.1, (0 : ℚ))) :
        QMap).lookup b).isSome := by
    rw [lookup_isSome_iff_mem_keys, keys_seed]
    exact hbkeys
  rw [matchRound, List.foldl_append, List.foldl_cons]
  dsimp only
  set st0 : MatchState :=
    ⟨offers.map fun p => (p.1, p.2.kwh), [],
      (pre ++ (b, req) :: suf).map fun p => (p.1, 0)⟩
  set st1 := pre.foldl
    (fun st p => processBuyer T thr offers st p.1 p.2) st0
  obtain ⟨hpre1, hpre2⟩ :=
    matchFold_received_preserve T thr offers pre st0 b hbpre
  have hst1Some : (st1.received.lookup b).isSome := by
    rw [matchFold_received_isSome]
    exact hseedSome
  have hst1zero : qget st1.received b = 0 := by
    rw [hpre1]
    exact qget_seed_zero (pre ++ (b, req) :: suf) b
  have hst1fil :
      st1.results.filter (fun r => decide (r.buyer = b)) = [] := by
    rw [hpre2]
    rfl
  have hself := processBuyer_received_self T thr offers st1 b req
    hst1Some hst1fil hst1zero
  set st2 := processBuyer T thr offers st1 b req
  obtain ⟨hsuf1, hsuf2⟩ :=
    matchFold_received_preserve T thr offers suf st2 b hbsuf
  rw [hsuf1, hself, allocatedToBuyer, allocatedToBuyer, hsuf2]

theorem processBuyer_received_le (T thr : ℚ)
    (offers : List (String × Offer)) (st : MatchState) (b2 : String)
    (req : Request) (hT : 0 ≤ T)
    (h : ∀ b, qget st.received b ≤ T) :
    ∀ b, qget (processBuyer T thr offers st b2 req).received b ≤ T := by
  intro b
  simp only [processBuyer]
  split_ifs with h1 h2
  · exact h b
  · rcases qget_qset_cases st.received b2
        (buyLoop T req.need (availableSellers offers st.rem req.priceMax)
          ⟨st.rem, 0, 0, []⟩).bought b with hc | hc
    · rw [hc]
      exact buyLoop_bought_le T req.need _ ⟨st.rem, 0, 0, []⟩ hT
    · rw [hc]
      exact h b
  · exact h b

theorem matchRound_received_le (T thr : ℚ) (offers : List (String × Offer))
    (reqs : List (String × Request)) (hT : 0 ≤ T) :
    ∀ b, qget (matchRound T thr offers reqs).received b ≤ T := by
  rw [matchRound]
  have hgen : ∀ (suf : List (String × Request)) (st : MatchState),
      (∀ b, qget st.received b ≤ T) →
      ∀ b, qget
        (suf.foldl (fun st p => processBuyer T thr offers st p.1 p.2)
          st).received b ≤ T := by
    intro suf
    induction suf with
    | nil => intro st h; exact h
    | cons q rest ih =>
      intro st h
      rw [List.foldl_cons]
      exact ih _ (processBuyer_received_le T thr offers st q.1 q.2 hT h)
  refine hgen reqs _ ?_
  intro b
  rw [qget_seed_zero]
  exact hT

theorem matchRound_received_keys (T thr : ℚ)
    (offers : List (String × Offer)) (reqs : List (String × Request)) :
    (matchRound T thr offers reqs).received.map Prod.fst =
      reqs.map Prod.fst := by
  rw [matchRound]
  have hgen : ∀ (suf : List (String × Request)) (st : MatchState),
      (suf.foldl (fun st p => processBuyer T thr offers st p.1 p.2)
        st).received.map Prod.fst = st.received.map Prod.fst := by
    intro suf
    induction suf with
    | nil => intro st; rfl
    | cons q rest ih =>
      intro st
      rw [List.foldl_cons, ih]
      simp only [processBuyer]
      split_ifs with h1 h2
      · rfl
      · dsimp only
        exact keys_qmod _ _
      · rfl
  rw [hgen, keys_seed]

theorem deliveredTo_append (b : String) (ds es : List ExtDelivery) :
    deliveredTo b (ds ++ es) = deliveredTo b ds + deliveredTo b es := by
  simp [deliveredTo, List.filter_append]

theorem extServe_received_sub (T sp : ℚ) (l : List UnmetEntry)
    (acc : ExtAcc) (b : String)
    (hkeys : ∀ e ∈ l, (acc.received.lookup e.buyer).isSome) :
    qget (extServe T sp l acc).received b -
        deliveredTo b (extServe T sp l acc).deliveries =
      qget acc.received b - deliveredTo b acc.deliveries := by
  induction l generalizing acc with
  | nil => simp [extServe]
  | cons e rest ih =>
    simp only [extServe]
    split_ifs with h1 h2 h3
    · exact ih acc fun e2 he2 => hkeys e2 (List.mem_cons_of_mem _ he2)
    · exact ih acc fun e2 he2 => hkeys e2 (List.mem_cons_of_mem _ he2)
    · rw [ih]
      · have hesome : (acc.received.lookup e.buyer).isSome :=
          hkeys e (List.mem_cons_self _ _)
        by_cases hbe : b = e.buyer
        · subst hbe
          rw [qget_qset_self _ _ _ hesome, deliveredTo_append]
          simp [deliveredTo]
        · rw [qget_qset_ne _ _ _ _ hbe, deliveredTo_append]
          simp [deliveredTo, Ne.symm hbe]
      · intro e2 he2
        rw [lookup_isSome_qset]
        exact hkeys e2 (List.mem_cons_of_mem _ he2)
    · exact ih acc fun e2 he2 => hkeys e2 (List.mem_cons_of_mem _ he2)

theorem extServe_received_le (T sp : ℚ) (l : List UnmetEntry) (acc : ExtAcc)
    (h : ∀ b, qget acc.received b ≤ T) :
    ∀ b, qget (extServe T sp l acc).received b ≤ T := by
  induction l generalizing acc with
  | nil => intro b; simpa [extServe] using h b
  | cons e rest ih =>
    intro b
    simp only [extServe]
    split_ifs with h1 h2 h3
    · exact ih acc h b
    · exact ih acc h b
    · refine ih _ ?_ b
      intro b2
      rcases qget_qset_cases acc.received e.buyer
          (qget acc.received e.buyer +
            min e.remainingNeed (max 0 (T - qget acc.received e.buyer)))
          b2 with hc | hc
      · rw [hc]
        have hlim : ¬ max 0 (T - qget acc.received e.buyer) ≤ 0 := h2
        have hTc : (0:ℚ) < T - qget acc.received e.buyer := by
          by_contra hcon
          push_neg at hcon
          exact hlim (by simp [max_eq_left hcon])
        have : min e.remainingNeed (max 0 (T - qget acc.received e.buyer)) ≤
            T - qget acc.received e.buyer := by
          rw [max_eq_right hTc.le]
          exact min_le_right _ _
        linarith
      · rw [hc]
        exact h b2
    · exact ih acc h b

theorem extServe_deliveries_origin (T sp : ℚ) (l : List UnmetEntry)
    (acc : ExtAcc) :
    ∀ d ∈ (extServe T sp l acc).deliveries,
      d ∈ acc.deliveries ∨
        ∃ e ∈ l, d.buyer = e.buyer ∧ d.price = sp ∧ sp ≤ e.priceMax := by
  induction l generalizing acc with
  | nil => intro d hd; exact Or.inl (by simpa [extServe] using hd)
  | cons e rest ih =>
    intro d hd
    simp only [extServe] at hd
    split_ifs at hd with h1 h2 h3
    · rcases ih acc d hd with hmem | ⟨e2, he2, hrest⟩
      · exact Or.inl hmem
      · exact Or.inr ⟨e2, List.mem_cons_of_mem _ he2, hrest⟩
    · rcases ih acc d hd with hmem | ⟨e2, he2, hrest⟩
      · exact Or.inl hmem
      · exact Or.inr ⟨e2, List.mem_cons_of_mem _ he2, hrest⟩
    · rcases ih _ d hd with hmem | ⟨e2, he2, hrest⟩
      · simp only [List.mem_append, List.mem_singleton] at hmem
        rcases hmem with hmem | rfl
        · exact Or.inl hmem
        · exact Or.inr ⟨e, List.mem_cons_self _ _, rfl, rfl, h1⟩
      · exact Or.inr ⟨e2, List.mem_cons_of_mem _ he2, hrest⟩
    · rcases ih acc d hd with hmem | ⟨e2, he2, hrest⟩
      · exact Or.inl hmem
      · exact Or.inr ⟨e2, List.mem_cons_of_mem _ he2, hrest⟩

theorem unmetDemand_mem (reqs : List (String × Request)) (recv : QMap) :
    ∀ e ∈ unmetDemand reqs recv,
      ∃ req : Request, (e.buyer, req) ∈ reqs ∧ e.priceMax = req.priceMax := by
  intro e he
  rw [unmetDemand, List.mem_filterMap] at he
  obtain ⟨p, hp, hsome⟩ := he
  split_ifs at hsome with hcond
  · cases hsome
    exact ⟨p.2, hp, rfl⟩

theorem unmetDemand_buyer_mem (reqs : List (String × Request)) (recv : QMap) :
    ∀ e ∈ unmetDemand reqs recv, e.buyer ∈ reqs.map Prod.fst := by
  intro e he
  rw [unmetDemand, List.mem_filterMap] at he
  obtain ⟨p, hp, hsome⟩ := he
  split_ifs at hsome with hcond
  · cases hsome
    exact List.mem_map_of_mem _ hp

/-- Claim C1. For every round and every buyer `b`, the total energy the
internal matching allocates to `b` plus the energy the external grid
delivers to `b` in the same round is at most the transmission limit
(`transmission_limit_kw`, default `TRANSMISSION_LIMIT_KW = 3.0` in
`scenarios/base_config.py`): both loops truncate every allocation to the
remaining headroom `max(0, transmission_limit_kw - already_received)`
(`agents/grid_node_agent.py` lines 655-691 and 869-954). -/
theorem buyer_transmission_cap (T thr sellPrice : ℚ)
    (offers : List (String × Offer)) (reqs : List (String × Request))
    (hT : 0 ≤ T) (hnd : (reqs.map Prod.fst).Nodup) (b : String)
    (req : Request) (hb : (b, req) ∈ reqs) :
    allocatedToBuyer (matchRound T thr offers reqs) b +
      deliveredTo b
        (externalStep T sellPrice reqs
          (matchRound T thr offers reqs)).deliveries ≤ T := by
  set st := matchRound T thr offers reqs with hst
  have halloc : qget st.received b = allocatedToBuyer st b :=
    matchRound_received_eq T thr offers reqs hnd b req hb
  have hkeysSome : ∀ e ∈ unmetDemand reqs st.received,
      ((⟨st.received, [], 0, 0⟩ : ExtAcc).received.lookup e.buyer).isSome := by
    intro e he
    show (st.received.lookup e.buyer).isSome
    rw [lookup_isSome_iff_mem_keys, hst, matchRound_received_keys]
    exact unmetDemand_buyer_mem reqs st.received e he
  have hsub := extServe_received_sub T sellPrice
    (unmetDemand reqs st.received) ⟨st.received, [], 0, 0⟩ b hkeysSome
  have hle := extServe_received_le T sellPrice
    (unmetDemand reqs st.received) ⟨st.received, [], 0, 0⟩
    (fun b2 => matchRound_received_le T thr offers reqs hT b2) b
  have hdz : deliveredTo b ([] : List ExtDelivery) = 0 := rfl
  dsimp only at hsub
  rw [hdz, sub_zero] at hsub
  rw [externalStep, ← halloc]
  linarith [hsub, hle]

/-- Witness for C1: one seller offering 5 kWh at €0.20, one buyer needing
5 kWh at cap €0.30, transmission limit 3 kWh, external sell price €0.28.
Internal allocation is capped at 3 kWh and the external grid may not push
the buyer past the same limit. -/
theorem buyer_transmission_cap_witness :
    (0 : ℚ) ≤ 3 ∧
    (([("b1", (⟨5, 30/100⟩ : Request))].map Prod.fst).Nodup) ∧
    (("b1", (⟨5, 30/100⟩ : Request)) ∈ [("b1", (⟨5, 30/100⟩ : Request))]) ∧
    allocatedToBuyer
        (matchRound 3 (999/10) [("S", ⟨5, 20/100⟩)] [("b1", ⟨5, 30/100⟩)])
        "b1" +
      deliveredTo "b1"
        (externalStep 3 (28/100) [("b1", ⟨5, 30/100⟩)]
          (matchRound 3 (999/10) [("S", ⟨5, 20/100⟩)]
            [("b1", ⟨5, 30/100⟩)])).deliveries ≤ 3 :=
  ⟨by norm_num, by simp, List.mem_singleton.mpr rfl,
   buyer_transmission_cap 3 (999/10) (28/100) [("S", ⟨5, 20/100⟩)]
     [("b1", ⟨5, 30/100⟩)] (by norm_num) (by simp) "b1" ⟨5, 30/100⟩
     (List.mem_singleton.mpr rfl)⟩

/-- Claim C3. Every purchase recorded by the matching algorithm has unit
price at most the buyer's `price_max` (candidate sellers are filtered by
`offer_data["price"] <= price_max`, `grid_node_agent.py` lines 631-649),
and the external grid delivers to an unmet buyer only when
`external_grid_sell_price <= price_max` (lines 869-891). -/
theorem price_admissibility (T thr sellPrice : ℚ)
    (offers : List (String × Offer)) (reqs : List (String × Request)) :
    (∀ r ∈ (matchRound T thr offers reqs).results,
      ∀ p ∈ r.purchases, p.price ≤ r.priceMax) ∧
    (∀ d ∈ (externalStep T sellPrice reqs
        (matchRound T thr offers reqs)).deliveries,
      d.price = sellPrice ∧
        ∃ req : Request, (d.buyer, req) ∈ reqs ∧ sellPrice ≤ req.priceMax) := by
  constructor
  · intro r hr
    exact ((matchRound_results_spec T thr offers reqs) r hr).2.1
  · intro d hd
    rcases extServe_deliveries_origin T sellPrice
        (unmetDemand reqs (matchRound T thr offers reqs).received)
        ⟨(matchRound T thr offers reqs).received, [], 0, 0⟩ d hd with
      hmem | ⟨e, he, hbuyer, hprice, hle⟩
    · simp at hmem
    · obtain ⟨req, hreq, hpm⟩ :=
        unmetDemand_mem reqs (matchRound T thr offers reqs).received e he
      refine ⟨hprice, req, ?_, ?_⟩
      · rw [hbuyer]
        exact hreq
      · rw [← hpm]
        exact hle

/-- Claim C8, counterexample. One seller offers 1.99 kWh at €0.20, the buyer
needs 2 kWh with cap €0.30; matching buys 1.99 kWh, a fulfillment of
99.5 % ≥ 99.0 %.  The claim says this buyer is classified as a full match,
but the monolithic coordinator (`grid_node_agent.py` line 703, threshold
99.9 %) counts it as partial. -/
theorem full_match_counterexample :
    (matchRound 3 (999/10) [("s1", ⟨199/100, 1/5⟩)]
        [("b1", ⟨2, 3/10⟩)]).results.map
      (fun r => (r.bought, r.countedFull)) = [(199/100, false)] ∧
    (199/100 : ℚ) / 2 * 100 ≥ 99 := by
  constructor
  · norm_num [matchRound, processBuyer, buyLoop, availableSellers, candLE,
      qget, qdec, qset, qmod, mergeSort_single, List.lookup]
  · norm_num

/-- Claim C8, amended. A buyer for which matching bought a positive amount
is counted as a full match by the modular orchestrator exactly when
`100·bought/need ≥ 99.0` (`orchestrator.py` line 354), but by the
monolithic coordinator exactly when `100·bought/need ≥ 99.9`
(`grid_node_agent.py` line 703). -/
theorem full_match_thresholds (T : ℚ) (offers : List (String × Offer))
    (reqs : List (String × Request)) (r : BuyerResult) :
    (r ∈ (matchRound T 99 offers reqs).results → 0 < r.bought →
      (r.countedFull = true ↔ r.bought / r.need * 100 ≥ 99)) ∧
    (r ∈ (matchRound T (999/10) offers reqs).results → 0 < r.bought →
      (r.countedFull = true ↔ r.bought / r.need * 100 ≥ 999/10)) := by
  constructor
  · intro hr hpos
    rw [((matchRound_results_spec T 99 offers reqs) r hr).2.2]
    simp [hpos]
  · intro hr hpos
    rw [((matchRound_results_spec T (999/10) offers reqs) r hr).2.2]
    simp [hpos]

/-- Witness for the amended C8: a fully served buyer (2 of 2 kWh, 100 %)
is counted full by the modular orchestrator. -/
theorem full_match_thresholds_witness :
    ((⟨"b", 2, 3/10, 2, 2/5, [⟨"s", 2, 1/5⟩], true⟩ : BuyerResult) ∈
      (matchRound 3 99 [("s", ⟨2, 1/5⟩)] [("b", ⟨2, 3/10⟩)]).results) ∧
    (0 : ℚ) < 2 ∧
    ((⟨"b", 2, 3/10, 2, 2/5, [⟨"s", 2, 1/5⟩], true⟩ :
        BuyerResult).countedFull = true ↔ (2 : ℚ) / 2 * 100 ≥ 99) :=
  ⟨by norm_num [matchRound, processBuyer, buyLoop, availableSellers, candLE,
      qget, qdec, qset, qmod, mergeSort_single, List.lookup],
   by norm_num,
   (full_match_thresholds 3 [("s", ⟨2, 1/5⟩)] [("b", ⟨2, 3/10⟩)] _).1
     (by norm_num [matchRound, processBuyer, buyLoop, availableSellers,
        candLE, qget, qdec, qset, qmod, mergeSort_single, List.lookup])
     (by norm_num)⟩

/-- Claim C7, counterexample. With buyer fulfillments 98 % and 100 % the
average is exactly 99.0 %, so the claimed rule `blackout ⟺ avg < 99.0`
says the round is not a blackout round, yet the round is recorded as one:
the modular orchestrator flags any round with a buyer below 99.0 % and
`record_round` keeps that flag. -/
theorem blackout_flag_counterexample :
    recordedBlackoutModular [("a", 98), ("b", 100)] = true ∧
      ¬ (avgFulfillment [("a", 98), ("b", 100)] < 99) := by
  constructor
  · norm_num [recordedBlackoutModular, recordBlackout, blackoutRoundFlag,
      blackoutImpacted, List.countP_cons, List.countP_nil]
  · norm_num [avgFulfillment]

/-- Claim C7, amended. A round recorded through the modular orchestrator is
flagged blackout iff some buyer's fulfillment is below 99.0 %; the
`avg_fulfillment < 99.0` rule of `record_round` applies only as a
fallback, when the round data carries no flag (monolithic coordinator). -/
theorem blackout_flag_spec (f : List (String × ℚ)) :
    (recordedBlackoutModular f = true ↔ ∃ p ∈ f, p.2 < 99) ∧
    (recordedBlackoutMonolithic f = true ↔ avgFulfillment f < 99) := by
  constructor
  · simp [recordedBlackoutModular, recordBlackout, blackoutRoundFlag,
      blackoutImpacted, List.countP_pos_iff]
  · simp [recordedBlackoutMonolithic, recordBlackout]

theorem mem_unique_of_nodup_keys {α : Type} (l : List (String × α))
    (hnd : (l.map Prod.fst).Nodup) (s : String) (a b : α)
    (ha : (s, a) ∈ l) (hb : (s, b) ∈ l) : a = b := by
  induction l with
  | nil => simp at ha
  | cons p rest ih =>
    rcases List.mem_cons.mp ha with rfl | ha2
    · rcases List.mem_cons.mp hb with heq | hb2
      · exact congrArg Prod.snd heq.symm
      · exfalso
        have : s ∈ rest.map Prod.fst := List.mem_map_of_mem Prod.fst hb2
        exact (List.nodup_cons.mp hnd).1 this
    · rcases List.mem_cons.mp hb with rfl | hb2
      · exfalso
        have : s ∈ rest.map Prod.fst := List.mem_map_of_mem Prod.fst ha2
        exact (List.nodup_cons.mp hnd).1 this
      · exact ih (List.nodup_cons.mp hnd).2 ha2 hb2

/-- Claim C10. After matching, a seller's leftover energy is offered for
absorption by the external grid only when it exceeds 0.5 kWh
(`if remaining > 0.5`, `grid_node_agent.py` lines 843-851): a remainder of
at most 0.5 kWh never enters `surplus_energy`, generates no `offer_accept`
notification, and dropping that seller from `seller_remaining` changes
nothing about the absorption step, so `ext_grid_total_bought_kwh` and
`ext_grid_costs` are unaffected by it. -/
theorem small_remainder_not_exported (rem : QMap)
    (emerg : String → Bool) (buyPrice : ℚ) (s : String) (r : ℚ)
    (hmem : (s, r) ∈ rem) (hnd : (rem.map Prod.fst).Nodup)
    (hr : r ≤ 1/2) :
    s ∉ (surplusEnergy rem emerg).map Prod.fst ∧
    (∀ sale ∈ extAbsorbSales buyPrice (surplusEnergy rem emerg),
      sale.seller ≠ s) ∧
    surplusEnergy (rem.filter fun p => !decide (p.1 = s)) emerg =
      surplusEnergy rem emerg := by
  have hnotin : s ∉ (surplusEnergy rem emerg).map Prod.fst := by
    intro hs
    rcases List.mem_map.mp hs with ⟨p, hp, hps⟩
    have hpmem : p ∈ rem := List.mem_filter.mp hp |>.1
    have hcond := List.mem_filter.mp hp |>.2
    simp only [Bool.and_eq_true, decide_eq_true_eq] at hcond
    have hpv : p = (s, p.2) := by
      rcases p with ⟨p1, p2⟩
      simp only [Prod.fst] at hps
      rw [hps]
    rw [hpv] at hpmem
    have := mem_unique_of_nodup_keys rem hnd s p.2 r hpmem hmem
    rw [this] at hcond
    linarith [hcond.1]
  refine ⟨hnotin, ?_, ?_⟩
  · intro sale hsale hss
    rcases List.mem_map.mp hsale with ⟨p, hp, hps⟩
    apply hnotin
    rw [← hss, ← hps]
    exact List.mem_map_of_mem Prod.fst hp
  · have hcomm : surplusEnergy (rem.filter fun p => !decide (p.1 = s))
        emerg = (surplusEnergy rem emerg).filter
          fun p => !decide (p.1 = s) := by
      simp [surplusEnergy, List.filter_filter, Bool.and_comm]
    rw [hcomm]
    apply List.filter_eq_self.mpr
    intro p hp
    simp only [Bool.not_eq_true', decide_eq_false_iff_not]
    intro hps
    apply hnotin
    rw [← hps]
    exact List.mem_map_of_mem Prod.fst hp

/-- Witness for C10: a seller left with 0.4 kWh after matching is not
offered to the external grid. -/
theorem small_remainder_not_exported_witness :
    (("x", (2/5 : ℚ)) ∈ [("x", (2/5 : ℚ))]) ∧
    (([("x", (2/5 : ℚ))].map Prod.fst).Nodup) ∧ ((2/5 : ℚ) ≤ 1/2) ∧
    ("x" ∉ (surplusEnergy [("x", (2/5 : ℚ))] fun _ => false).map
      Prod.fst) :=
  ⟨List.mem_singleton.mpr rfl, by simp, by norm_num,
   (small_remainder_not_exported [("x", (2/5 : ℚ))] (fun _ => false)
     (1/10) "x" (2/5) (List.mem_singleton.mpr rfl) (by simp)
     (by norm_num)).1⟩

theorem lookup_mapVals {α : Type} (l : List (String × α))
    (f : String → α → α) (t : String) :
    (mapVals l f).lookup t = (l.lookup t).map (f t) := by
  induction l with
  | nil => rfl
  | cons p rest ih =>
    rcases p with ⟨pk, pv⟩
    by_cases h : t = pk
    · subst h; simp [mapVals, List.lookup, ih]
    · have hbeq : (t == pk) = false := beq_false_of_ne h
      simp only [mapVals, List.map_cons] at *
      simp [List.lookup, hbeq, ih]

theorem keys_mapVals {α : Type} (l : List (String × α))
    (f : String → α → α) :
    (mapVals l f).map Prod.fst = l.map Prod.fst := by
  induction l with
  | nil => rfl
  | cons p rest ih =>
    simp only [mapVals, List.map_cons] at *
    simp [ih]

/-- The producer never turns its own `is_operational` flag off: since it
starts `True` and no producer-side transition clears it, every
`production_report` the producer sends carries `is_operational = true`. -/
theorem producer_reports_operational (ticks : List Bool) :
    (ticks.foldl (fun st t => producerEnvStep t st) (true, 0)).1 = true := by
  have hgen : ∀ (l : List Bool) (st : Bool × ℕ), st.1 = true →
      (l.foldl (fun st t => producerEnvStep t st) st).1 = true := by
    intro l
    induction l with
    | nil => intro st h; exact h
    | cons t rest ih =>
      intro st h
      rw [List.foldl_cons]
      exact ih _ (by simp [producerEnvStep, h])
  exact hgen ticks (true, 0) rfl

/-- Merging `i` production reports into a producer failed for `r` rounds
(with `i < r`) leaves it failed for `r − i` rounds with zero production. -/
theorem mergeSeq_failed (t : ℕ) (reps : List Report) :
    ∀ r : ℕ, reps.length < r →
      reps.foldl (fun s rep => mergeEntry (some s) rep) ⟨false, r, t, 0⟩ =
        ⟨false, r - reps.length, t, 0⟩ := by
  induction reps with
  | nil => intro r hr; simp
  | cons rep rest ih =>
    intro r hr
    have hr1 : 1 < r := lt_of_le_of_lt (Nat.succ_le_succ (Nat.zero_le _)) hr
    have hrpos : 0 < r := Nat.lt_of_lt_of_le Nat.zero_lt_one hr1.le
    have hne : ¬ (r - 1 = 0) := by omega
    have hstep : mergeEntry (some ⟨false, r, t, 0⟩) rep =
        ⟨false, r - 1, t, 0⟩ := by
      simp [mergeEntry, hrpos, hne]
    rw [List.foldl_cons, hstep]
    have hlen : rest.length < r - 1 := by
      simp only [List.length_cons] at hr
      omega
    rw [ih (r - 1) hlen]
    congr 1
    simp only [List.length_cons]
    omega

/-- Claim C4, counterexample. A producer failed with
`failure_rounds_total = k = 1` becomes operational already when the FIRST
subsequent `production_report` is merged (`receivers.py` lines 63-73
decrement the counter and then test it for zero), while the claim says it
must stay non-operational through `k = 1` reports and recover only on the
second. -/
theorem producer_recovery_counterexample :
    (mergeEntry (some ⟨false, 1, 1, 0⟩) ⟨true, 0, 0, 5⟩).op = true := rfl

/-- Claim C4, amended. A producer the coordinator fails with
`failure_rounds_total = k` (k ≥ 1) remains non-operational while the first
`k − 1` subsequent production_reports are merged and becomes operational
again on the `k`-th (the merge decrements `failure_rounds_remaining`
before testing it for zero). -/
theorem producer_recovery (k : ℕ) (hk : 1 ≤ k) (reps : List Report)
    (hlen : reps.length = k) :
    (∀ i, i < k →
      (((reps.take i).foldl (fun s rep => mergeEntry (some s) rep)
        ⟨false, k, k, 0⟩) : PState).op = false) ∧
    ((reps.foldl (fun s rep => mergeEntry (some s) rep)
      ⟨false, k, k, 0⟩) : PState).op = true := by
  constructor
  · intro i hi
    have htake : (reps.take i).length = i := by
      rw [List.length_take, hlen]
      omega
    have := mergeSeq_failed k (reps.take i) k (by rw [htake]; exact hi)
    rw [this]
  · have hne : reps ≠ [] := by
      intro h
      rw [h] at hlen
      simp at hlen
      omega
    have hsplit := List.dropLast_append_getLast hne
    rw [← hsplit, List.foldl_append, List.foldl_cons, List.foldl_nil]
    have hdl : reps.dropLast.length = k - 1 := by
      rw [List.length_dropLast, hlen]
    have hfront := mergeSeq_failed k reps.dropLast k (by omega)
    rw [hfront, hdl]
    have h1 : k - (k - 1) = 1 := by omega
    rw [h1]
    simp [mergeEntry]

/-- Witness for the amended C4: a producer failed for 2 rounds is
operational again after merging the second subsequent report. -/
theorem producer_recovery_witness :
    1 ≤ 2 ∧ ([(⟨true, 0, 0, 5⟩ : Report), ⟨true, 0, 0, 6⟩]).length = 2 ∧
    (([(⟨true, 0, 0, 5⟩ : Report), ⟨true, 0, 0, 6⟩]).foldl
      (fun s rep => mergeEntry (some s) rep) ⟨false, 2, 2, 0⟩).op = true :=
  ⟨by norm_num, rfl,
   (producer_recovery 2 (by norm_num)
     [⟨true, 0, 0, 5⟩, ⟨true, 0, 0, 6⟩] rfl).2⟩

theorem map_set_not_mem {α : Type} (l : List (String × α)) (j : String)
    (v : α) (h : j ∉ l.map Prod.fst) :
    mapVals l (fun s w => if s = j then v else w) = l := by
  induction l with
  | nil => rfl
  | cons p rest ih =>
    have hpj : ¬ p.1 = j := by
      intro he
      apply h
      rw [List.map_cons, he]
      exact List.mem_cons_self _ _
    have hrest : j ∉ rest.map Prod.fst := by
      intro hm
      exact h (by rw [List.map_cons]; exact List.mem_cons_of_mem _ hm)
    simp only [mapVals, List.map_cons] at *
    simp [hpj, ih hrest]

theorem nodup_keys_dictSet {α : Type} (l : List (String × α)) (k : String)
    (v : α) (hnd : (l.map Prod.fst).Nodup) :
    ((dictSet l k v).map Prod.fst).Nodup := by
  rw [dictSet]
  split_ifs with hs
  · rw [keys_mapVals]
    exact hnd
  · have hk : k ∉ l.map Prod.fst := by
      rw [← lookup_isSome_iff_mem_keys]
      simpa using hs
    simp [List.nodup_append, hnd, hk]

theorem countFailed_cons (k : String) (st : PState)
    (rest : List (String × PState)) :
    countFailed ((k, st) :: rest) =
      countFailed rest + (if st.op then 0 else 1) := by
  simp only [countFailed, List.countP_cons]
  cases h : st.op <;> simp [h]

theorem countFailed_zero_of_anyFailed_false
    (m : List (String × PState)) (h : anyFailed m = false) :
    countFailed m = 0 := by
  induction m with
  | nil => rfl
  | cons p rest ih =>
    rcases p with ⟨k, st⟩
    simp only [anyFailed, List.any_cons, Bool.or_eq_false_iff] at h
    obtain ⟨hhead, hrest⟩ := h
    have hop : st.op = true := by
      revert hhead
      cases st.op <;> simp
    rw [countFailed_cons, hop, ih hrest]
    simp

theorem failFirst_keys (coins : String → Bool) (dur : ℕ)
    (m : List (String × PState)) :
    (failFirst coins dur m).map Prod.fst = m.map Prod.fst := by
  induction m with
  | nil => rfl
  | cons p rest ih =>
    rcases p with ⟨j, st⟩
    simp only [failFirst]
    split_ifs with h
    · simp
    · simp [ih]

theorem failFirst_count_le_one (coins : String → Bool) (dur : ℕ)
    (m : List (String × PState)) (h : anyFailed m = false) :
    countFailed (failFirst coins dur m) ≤ 1 := by
  induction m with
  | nil => simp [failFirst, countFailed]
  | cons p rest ih =>
    rcases p with ⟨j, st⟩
    simp only [anyFailed, List.any_cons, Bool.or_eq_false_iff] at h
    obtain ⟨hhead, hrest⟩ := h
    have hop : st.op = true := by
      revert hhead
      cases st.op <;> simp
    simp only [failFirst]
    split_ifs with hc
    · rw [countFailed_cons, countFailed_zero_of_anyFailed_false rest hrest]
      simp
    · rw [countFailed_cons, hop]
      simpa using ih hrest

theorem mergeReport_cons_ne (k : String) (st : PState)
    (rest : List (String × PState)) (j : String) (rep : Report)
    (hkj : k ≠ j) :
    mergeReport ((k, st) :: rest) j rep =
      (k, st) :: mergeReport rest j rep := by
  have hl : ((k, st) :: rest).lookup j = rest.lookup j := by
    simp [List.lookup, beq_false_of_ne (Ne.symm hkj)]
  simp only [mergeReport, dictSet, hl]
  by_cases hs : (rest.lookup j).isSome
  · rw [if_pos hs, if_pos hs]
    simp [mapVals, hkj]
  · rw [if_neg hs, if_neg hs]
    rfl

theorem mergeEntry_op_of_op (st : PState) (rep : Report)
    (hrep : rep.op = true) (hop : st.op = true) :
    (mergeEntry (some st) rep).op = true := by
  simp [mergeEntry, hop, reportToState, hrep]

theorem mergeReport_count_le (m : List (String × PState)) (j : String)
    (rep : Report) (hrep : rep.op = true)
    (hnd : (m.map Prod.fst).Nodup) :
    countFailed (mergeReport m j rep) ≤ countFailed m := by
  induction m with
  | nil =>
    simp [mergeReport, dictSet, mergeEntry, countFailed, List.countP_cons,
      reportToState, hrep]
  | cons p rest ih =>
    rcases p with ⟨k, st⟩
    by_cases hkj : k = j
    · subst hkj
      have hl : ((k, st) :: rest).lookup k = some st := by
        simp [List.lookup]
      have hknotin : k ∉ rest.map Prod.fst := (List.nodup_cons.mp hnd).1
      have hexp : mergeReport ((k, st) :: rest) k rep =
          (k, mergeEntry (some st) rep) :: rest := by
        simp only [mergeReport, dictSet, hl]
        rw [if_pos (by rfl)]
        have hrest := map_set_not_mem rest k (mergeEntry (some st) rep)
          hknotin
        simp only [mapVals, List.map_cons] at hrest ⊢
        rw [hrest]
        simp
      rw [hexp, countFailed_cons, countFailed_cons]
      by_cases hsop : st.op = true
      · have hm := mergeEntry_op_of_op st rep hrep hsop
        simp [hm, hsop]
      · have h1 : (if st.op = true then (0:ℕ) else 1) = 1 := by
          simp [hsop]
        rw [h1]
        split_ifs <;> omega
    · rw [mergeReport_cons_ne k st rest j rep hkj]
      rw [countFailed_cons, countFailed_cons]
      have := ih (List.nodup_cons.mp hnd).2
      omega

theorem mergeReport_nodup (m : List (String × PState)) (j : String)
    (rep : Report) (hnd : (m.map Prod.fst).Nodup) :
    ((mergeReport m j rep).map Prod.fst).Nodup :=
  nodup_keys_dictSet m j _ hnd

theorem coordStep_invariant (m : List (String × PState)) (a : CoordAction)
    (ha : reportsOperational a) (hnd : (m.map Prod.fst).Nodup)
    (hc : countFailed m ≤ 1) :
    ((coordStep m a).map Prod.fst).Nodup ∧
      countFailed (coordStep m a) ≤ 1 := by
  cases a with
  | report j rep =>
    exact ⟨mergeReport_nodup m j rep hnd,
      le_trans (mergeReport_count_le m j rep ha hnd) hc⟩
  | failureStep sf coins dur =>
    simp only [coordStep, checkAndTriggerFailure]
    split_ifs with h1 h2
    · exact ⟨hnd, hc⟩
    · exact ⟨hnd, hc⟩
    · refine ⟨by rw [failFirst_keys]; exact hnd, ?_⟩
      refine failFirst_count_le_one coins dur m ?_
      revert h2
      cases anyFailed m <;> simp

/-- Claim C5. In every coordinator state reachable from startup through
production-report merges and failure steps, at most one producer is
non-operational: `_check_and_trigger_failure` injects a failure only when
storage is ≥ 99 % full and no producer is currently failed, stops after
failing one producer, and the merge — given that this system's producers
always report `is_operational = True` (`producer_reports_operational`) —
only ever keeps or restores operational status. -/
theorem failure_singleton (acts : List CoordAction)
    (hrep : ∀ a ∈ acts, reportsOperational a) :
    countFailed (coordRun acts) ≤ 1 := by
  suffices h : ∀ (l : List CoordAction) (m : List (String × PState)),
      (∀ a ∈ l, reportsOperational a) → (m.map Prod.fst).Nodup →
      countFailed m ≤ 1 →
      ((l.foldl coordStep m).map Prod.fst).Nodup ∧
        countFailed (l.foldl coordStep m) ≤ 1 by
    exact (h acts [] hrep (by simp) (by simp [countFailed])).2
  intro l
  induction l with
  | nil => intro m _ hnd hc; exact ⟨hnd, hc⟩
  | cons a rest ih =>
    intro m hl hnd hc
    rw [List.foldl_cons]
    obtain ⟨hnd2, hc2⟩ := coordStep_invariant m a
      (hl a (List.mem_cons_self _ _)) hnd hc
    exact ih _ (fun a2 ha2 => hl a2 (List.mem_cons_of_mem _ ha2)) hnd2 hc2

/-- Witness for C5: two producers report, storage is full, both coins
fire — exactly one producer (the first) is failed. -/
theorem failure_singleton_witness :
    (∀ a ∈ [CoordAction.report "p1" ⟨true, 0, 0, 5⟩,
        CoordAction.report "p2" ⟨true, 0, 0, 4⟩,
        CoordAction.failureStep true (fun _ => true) 2],
      reportsOperational a) ∧
    countFailed (coordRun [CoordAction.report "p1" ⟨true, 0, 0, 5⟩,
        CoordAction.report "p2" ⟨true, 0, 0, 4⟩,
        CoordAction.failureStep true (fun _ => true) 2]) ≤ 1 := by
  have hrep : ∀ a ∈ [CoordAction.report "p1" ⟨true, 0, 0, 5⟩,
      CoordAction.report "p2" ⟨true, 0, 0, 4⟩,
      CoordAction.failureStep true (fun _ => true) 2],
      reportsOperational a := by
    intro a ha
    simp only [List.mem_cons, List.not_mem_nil, or_false] at ha
    rcases ha with rfl | rfl | rfl
    · rfl
    · rfl
    · trivial
  exact ⟨hrep, failure_singleton _ hrep⟩

theorem lookup_append_single {α : Type} (l : List (String × α))
    (k : String) (v : α) (s : String) :
    (l ++ [(k, v)]).lookup s =
      ((l.lookup s).orElse fun _ => ([(k, v)] : List (String × α)).lookup s) := by
  induction l with
  | nil => simp
  | cons p rest ih =>
    rcases p with ⟨pk, pv⟩
    by_cases h : s = pk
    · subst h; simp [List.lookup]
    · have hbeq : (s == pk) = false := beq_false_of_ne h
      simp only [List.cons_append, List.lookup, hbeq]
      exact ih

theorem dictSet_lookup_self {α : Type} (l : List (String × α))
    (k : String) (v : α) : (dictSet l k v).lookup k = some v := by
  rw [dictSet]
  split_ifs with hs
  · rw [lookup_mapVals]
    rcases hl : l.lookup k with _ | w
    · rw [hl] at hs; simp at hs
    · simp
  · rw [lookup_append_single]
    rcases hl : l.lookup k with _ | w
    · simp [List.lookup]
    · rw [hl] at hs; simp at hs

theorem dictSet_lookup_ne {α : Type} (l : List (String × α)) (k : String)
    (v : α) (s : String) (h : s ≠ k) :
    (dictSet l k v).lookup s = l.lookup s := by
  rw [dictSet]
  split_ifs with hs
  · rw [lookup_mapVals]
    rcases l.lookup s with _ | w
    · rfl
    · simp [h]
  · rw [lookup_append_single]
    have hbeq : (s == k) = false := beq_false_of_ne h
    rcases hl : l.lookup s with _ | w
    · simp [List.lookup, hbeq]
    · simp

/-- Claim C6, counterexample. An on-time, current-round `energy_offer` whose
sender is a producer the coordinator holds as non-operational is dropped
by the early `return` in the Receiver (`receivers.py` lines 136-139): it
is not added to the offers — as the claim requires — but NO `late` event
is logged either, contradicting the claim's "in every other case a `late`
event is logged". -/
theorem offer_rejection_counterexample :
    classifyOffer ⟨10, 20, fun _ => some false⟩ ⟨"p", 10, 5, 1/5, 15⟩ ≠
        OfferOutcome.accepted ∧
    offerEvents ⟨10, 20, fun _ => some false⟩ ⟨"p", 10, 5, 1/5, 15⟩ = [] ∧
    processOffer ⟨10, 20, fun _ => some false⟩ []
      ⟨"p", 10, 5, 1/5, 15⟩ = [] := by
  refine ⟨?_, ?_, ?_⟩ <;> simp [classifyOffer, offerEvents, processOffer]

/-- Claim C6, amended. With a positive receive clock, an incoming
`energy_offer` is added to the current round's offers iff its `round_id`
equals the current round, it arrives no later than the round deadline,
and its sender is not a producer marked non-operational.  An offer from a
non-operational producer is dropped silently (no event at all); every
other rejected offer is logged as `late`; and any rejected offer leaves
`offers_round[R]` unchanged, so it never appears in an allocation. -/
theorem offer_acceptance (ctx : OfferCtx) (m : OfferMsg)
    (ledger : List (String × Offer)) (hnow : 0 < m.arrival) :
    (classifyOffer ctx m = .accepted ↔
      (m.roundId = ctx.roundId ∧ m.arrival ≤ ctx.deadline ∧
        ctx.producerOp m.sender ≠ some false)) ∧
    (classifyOffer ctx m = .droppedOffline ↔
      ctx.producerOp m.sender = some false) ∧
    (classifyOffer ctx m = .droppedOffline → offerEvents ctx m = []) ∧
    (classifyOffer ctx m = .late →
      offerEvents ctx m = [.late m.sender m.offerKwh m.price m.roundId]) ∧
    (classifyOffer ctx m ≠ .accepted →
      processOffer ctx ledger m = ledger) := by
  by_cases hoff : ctx.producerOp m.sender = some false
  · have hcls : classifyOffer ctx m = .droppedOffline := by
      simp [classifyOffer, hoff]
    refine ⟨?_, ?_, ?_, ?_, ?_⟩
    · rw [hcls]
      exact iff_of_false (by simp) (fun h => h.2.2 hoff)
    · rw [hcls]
      exact iff_of_true rfl hoff
    · intro _
      simp [offerEvents, hcls]
    · intro hlate
      rw [hcls] at hlate
      simp at hlate
    · intro _
      simp [processOffer, hcls]
  · by_cases hcond : m.roundId = ctx.roundId ∧ 0 < ctx.deadline ∧
        m.arrival ≤ ctx.deadline
    · have hcls : classifyOffer ctx m = .accepted := by
        simp [classifyOffer, hoff, hcond]
      refine ⟨?_, ?_, ?_, ?_, ?_⟩
      · rw [hcls]
        exact iff_of_true rfl ⟨hcond.1, hcond.2.2, hoff⟩
      · rw [hcls]
        exact iff_of_false (by simp) hoff
      · intro h
        rw [hcls] at h
        simp at h
      · intro h
        rw [hcls] at h
        simp at h
      · intro hna
        exact absurd hcls hna
    · have hcls : classifyOffer ctx m = .late := by
        simp only [classifyOffer, if_neg hoff, if_neg hcond]
      refine ⟨?_, ?_, ?_, ?_, ?_⟩
      · rw [hcls]
        refine iff_of_false (by simp) ?_
        rintro ⟨h1, h2, -⟩
        exact hcond ⟨h1, lt_of_lt_of_le hnow h2, h2⟩
      · rw [hcls]
        exact iff_of_false (by simp) hoff
      · intro h
        rw [hcls] at h
        simp at h
      · intro _
        simp [offerEvents, hcls]
      · intro _
        simp [processOffer, hcls]

/-- Witness for the amended C6: an on-time offer from a seller unknown to
`producers_state` in a round with an open deadline. -/
theorem offer_acceptance_witness :
    (0 : ℚ) < 15 ∧
    ((classifyOffer ⟨10, 20, fun _ => none⟩ ⟨"s", 10, 5, 1/5, 15⟩ =
        .accepted ↔
      ((10 : ℚ) = 10 ∧ (15 : ℚ) ≤ 20 ∧
        (fun _ => (none : Option Bool)) "s" ≠ some false)) ∧
    (classifyOffer ⟨10, 20, fun _ => none⟩ ⟨"s", 10, 5, 1/5, 15⟩ =
        .droppedOffline ↔
      (fun _ => (none : Option Bool)) "s" = some false) ∧
    (classifyOffer ⟨10, 20, fun _ => none⟩ ⟨"s", 10, 5, 1/5, 15⟩ =
        .droppedOffline →
      offerEvents ⟨10, 20, fun _ => none⟩ ⟨"s", 10, 5, 1/5, 15⟩ = []) ∧
    (classifyOffer ⟨10, 20, fun _ => none⟩ ⟨"s", 10, 5, 1/5, 15⟩ = .late →
      offerEvents ⟨10, 20, fun _ => none⟩ ⟨"s", 10, 5, 1/5, 15⟩ =
        [.late "s" 5 (1/5) 10]) ∧
    (classifyOffer ⟨10, 20, fun _ => none⟩ ⟨"s", 10, 5, 1/5, 15⟩ ≠
        .accepted →
      processOffer ⟨10, 20, fun _ => none⟩ [] ⟨"s", 10, 5, 1/5, 15⟩ = [])) :=
  ⟨by norm_num,
   offer_acceptance ⟨10, 20, fun _ => none⟩ ⟨"s", 10, 5, 1/5, 15⟩ []
     (by norm_num)⟩

theorem processOffers_append (ctx : OfferCtx) (ms : List OfferMsg)
    (m : OfferMsg) (ledger : List (String × Offer)) :
    processOffers ctx (ms ++ [m]) ledger =
      processOffer ctx (processOffers ctx ms ledger) m := by
  simp [processOffers, List.foldl_append]

theorem processOffers_lookup (ctx : OfferCtx) (ms : List OfferMsg)
    (ledger : List (String × Offer)) (s : String) :
    (processOffers ctx ms ledger).lookup s =
      (match lastAcceptedFrom ctx ms s with
        | some m => some (⟨m.offerKwh, m.price⟩ : Offer)
        | none => ledger.lookup s) := by
  induction ms using List.reverseRecOn with
  | nil => simp [processOffers, lastAcceptedFrom]
  | append_singleton ms m ih =>
    rw [processOffers_append]
    by_cases hacc : classifyOffer ctx m = .accepted
    · by_cases hsend : m.sender = s
      · have hfil : lastAcceptedFrom ctx (ms ++ [m]) s = some m := by
          simp [lastAcceptedFrom, List.filter_append, hacc, hsend]
        rw [hfil]
        have hstep : processOffer ctx (processOffers ctx ms ledger) m =
            dictSet (processOffers ctx ms ledger) m.sender
              ⟨m.offerKwh, m.price⟩ := by
          simp [processOffer, hacc]
        rw [hstep, ← hsend]
        exact dictSet_lookup_self _ _ _
      · have hfil : lastAcceptedFrom ctx (ms ++ [m]) s =
            lastAcceptedFrom ctx ms s := by
          simp [lastAcceptedFrom, List.filter_append, hsend]
        rw [hfil, ← ih]
        have hstep : processOffer ctx (processOffers ctx ms ledger) m =
            dictSet (processOffers ctx ms ledger) m.sender
              ⟨m.offerKwh, m.price⟩ := by
          simp [processOffer, hacc]
        rw [hstep]
        exact dictSet_lookup_ne _ _ _ _ (Ne.symm hsend)
    · have hfil : lastAcceptedFrom ctx (ms ++ [m]) s =
          lastAcceptedFrom ctx ms s := by
        simp [lastAcceptedFrom, List.filter_append, hacc]
      rw [hfil, ← ih]
      rcases hcls : classifyOffer ctx m
      · exact absurd hcls hacc
      · simp [processOffer, hcls]
      · simp [processOffer, hcls]

theorem processOffers_nodup (ctx : OfferCtx) (ms : List OfferMsg)
    (ledger : List (String × Offer))
    (h : (ledger.map Prod.fst).Nodup) :
    ((processOffers ctx ms ledger).map Prod.fst).Nodup := by
  induction ms generalizing ledger with
  | nil => exact h
  | cons m rest ih =>
    simp only [processOffers, List.foldl_cons]
    apply ih
    rcases hcls : classifyOffer ctx m
    · simpa [processOffer, hcls] using nodup_keys_dictSet ledger m.sender
        (⟨m.offerKwh, m.price⟩ : Offer) h
    · simpa [processOffer, hcls] using h
    · simpa [processOffer, hcls] using h

/-- Claim C9. When several `energy_offer`s from the same seller pass the
acceptance checks for a round, each later one overwrites the earlier
(`offers_round[R][seller] = {...}` is a dict assignment,
`receivers.py` lines 141-151): after the Receiver handles any message
sequence, the ledger holds at most one entry per seller, and the entry
for `s` is exactly the most recently received accepted offer from `s`
(absent when none was accepted) — so only that offer can participate in
matching, which reads `offers_round[R]`. -/
theorem offer_overwrite_latest (ctx : OfferCtx) (ms : List OfferMsg)
    (s : String) :
    ((processOffers ctx ms []).map Prod.fst).Nodup ∧
    (processOffers ctx ms []).lookup s =
      (match lastAcceptedFrom ctx ms s with
        | some m => some (⟨m.offerKwh, m.price⟩ : Offer)
        | none => none) := by
  refine ⟨processOffers_nodup ctx ms [] (by simp), ?_⟩
  rw [processOffers_lookup]
  rcases lastAcceptedFrom ctx ms s with _ | m <;> rfl

end SmartGrid
